import Mathlib

/-!
Verification of the track-selection core of ffstrip (src/ffstrip.py).

Shallow embedding conventions:
- Python strings are modelled as `List Char`; string literals are written
  as `"...".data`.
- A raw ffprobe stream dictionary is modelled by the structure `Track`;
  optional dictionary keys become `Option` fields, and the Python
  `dict.get(key, default)` idiom becomes `Option.getD`.
- An uncaught Python exception (IndexError, AttributeError) is modelled by
  `Option.none` in the result type of the function that raises it.
- Python `sorted` is a stable sort; it is modelled by `List.insertionSort`,
  which is stable for the same key (stability is proved below).
- Python `set` values over track indices are modelled by `Finset Nat`; the
  heterogeneous set difference `set(keep) - set(digit_tracks)` (strings
  minus integers) is modelled over the value type `PyVal`.
-/

namespace FFStrip

/-- One ffprobe stream descriptor as consumed by ffstrip.py: `index`,
`codec_type`, `tags.language`, `tags.title`, `tags.NUMBER_OF_BYTES`
(already parsed to a number) and `disposition.forced` (the raw 0/1 value;
`none` when the source metadata does not specify it). -/
structure Track where
  index : Nat
  codec_type : List Char
  language : Option (List Char)
  title : Option (List Char)
  number_of_bytes : Option Nat
  disposition_forced : Option Nat
  deriving DecidableEq

/-- `SelectableTrack.__init__` line 16:
`track.get("disposition", {}).get("forced", 1) == 1`. -/
def selectable_forced (t : Track) : Bool :=
  t.disposition_forced.getD 1 == 1

/-- Line 100 of the matcher: `"forced" if meta["disposition"].get("forced", 1) else ""`.
The absent flag defaults to `1`, which is truthy in Python. -/
def forced_string (t : Track) : List Char :=
  if t.disposition_forced.getD 1 ≠ 0 then "forced".data else []

/-- Python `str.lower()` (ASCII). -/
def lowerStr (s : List Char) : List Char := s.map Char.toLower

/-- Python `str.isdigit()`: non-empty and every character a digit. -/
def isdigit (s : List Char) : Bool := !s.isEmpty && s.all Char.isDigit

/-- Python `int(s)` on a digit string. -/
def digitsToNat (s : List Char) : Nat :=
  s.foldl (fun n c => 10 * n + (c.toNat - 48)) 0

/-- Bool test that `needle` is a leading segment of `hay`. -/
def startsWith : List Char → List Char → Bool
  | [], _ => true
  | _ :: _, [] => false
  | a :: as, b :: bs => a == b && startsWith as bs

/-- Python `needle in hay` on strings: contiguous substring containment. -/
def containsSub (needle : List Char) : List Char → Bool
  | [] => needle.isEmpty
  | b :: bs => startsWith needle (b :: bs) || containsSub needle bs

/-- Sort key of lines 81-84: `int(x.get("tags", {}).get("NUMBER_OF_BYTES", "0"))`. -/
def byteKey (t : Track) : Nat := t.number_of_bytes.getD 0

/-- Comparison used by the stable sort on the byte-count key. -/
def byteLE (a b : Track) : Prop := byteKey a ≤ byteKey b

instance : DecidableRel byteLE := fun a b => Nat.decLe (byteKey a) (byteKey b)

instance : IsTotal Track byteLE := ⟨fun a b => Nat.le_total (byteKey a) (byteKey b)⟩

instance : IsTrans Track byteLE := ⟨fun _ _ _ hab hbc => Nat.le_trans hab hbc⟩

/-- Lines 81-84: keep the tracks whose `codec_type` is in `codec_type`, then
Python `sorted(..., key=NUMBER_OF_BYTES)`.  `sorted` is stable, and insertion
sort is the stable sort for this key (sortedness and stability are proved
below). -/
def sortedCandidates (metadata : List Track) (codec_type : List (List Char)) : List Track :=
  List.insertionSort byteLE
    (metadata.filter (fun t => decide (t.codec_type ∈ codec_type)))

/-- The three derived strings of lines 97-101: lowercased language, lowercased
title, and the forced marker. -/
def match_strings (t : Track) : List (List Char) :=
  [lowerStr (t.language.getD []), lowerStr (t.title.getD []), forced_string t]

/-- Lines 95-104: the substring scan.  For each candidate, the index is
appended once per derived string that contains the pattern (there is no
`break` in the inner loop of the source). -/
def substringScan (patLower : List Char) : List Track → List Nat
  | [] => []
  | t :: ts =>
      ((match_strings t).filter (fun c => containsSub patLower c)).map (fun _ => t.index)
        ++ substringScan patLower ts

/-- Lines 79-80: `if not codec_type: codec_type = ("subtitle", "audio")`
(an empty tuple is falsy in Python). -/
def matcherCT (codec_type : List (List Char)) : List (List Char) :=
  if codec_type.isEmpty then ["subtitle".data, "audio".data] else codec_type

/-- The branch structure of lines 85-104, over the already-sorted candidate
list `filtered`.  `none` models an uncaught exception: `IndexError` from
`filtered_metadata[0]` / `[-1]` on an empty candidate list, and
`AttributeError` from `pattern.lower()` after `pattern` has been rebound to
`int(pattern)` (the rebinding happens whenever the pattern is all digits,
and `.lower()` is reached whenever the position check fails and the
candidate list is non-empty). -/
def matcherBranch (pattern : List Char) (ct : List (List Char))
    (filtered : List Track) : Option (List Nat) :=
  if "subtitle".data ∈ ct ∧ pattern = "smaller".data then
    match filtered with
    | [] => none
    | t :: _ => some [t.index]
  else if "subtitle".data ∈ ct ∧ pattern = "bigger".data then
    match filtered.getLast? with
    | none => none
    | some t => some [t.index]
  else if isdigit pattern then
    if h : digitsToNat pattern < filtered.length then
      some [(filtered.get ⟨digitsToNat pattern, h⟩).index]
    else if filtered.isEmpty then some []
    else none
  else some (substringScan (lowerStr pattern) filtered)

/-- `get_track_number_by_pattern` (lines 78-104). -/
def get_track_number_by_pattern (pattern : List Char) (metadata : List Track)
    (codec_type : List (List Char)) : Option (List Nat) :=
  matcherBranch pattern (matcherCT codec_type)
    (sortedCandidates metadata (matcherCT codec_type))

/-- Lines 139 and 168: `[int(x) for x in tokens if x.isdigit()]`. -/
def digit_tracks (tokens : List (List Char)) : List Nat :=
  (tokens.filter isdigit).map digitsToNat

/-- Helper for Python `str.split(":")`, accumulating the current segment. -/
def splitAux : List Char → List Char → List (List Char)
  | [], acc => [acc.reverse]
  | c :: cs, acc =>
      if c = ':' then acc.reverse :: splitAux cs [] else splitAux cs (c :: acc)

/-- Python `tok.split(":")` (lines 142 and 171). -/
def splitColon (s : List Char) : List (List Char) := splitAux s []

/-- A Python value appearing in the token sets of lines 141 and 170: the
token strings and the parsed literal integers live in one value universe,
and an `int` never equals a `str`. -/
inductive PyVal where
  | pyInt : Nat → PyVal
  | pyStr : List Char → PyVal
  deriving DecidableEq

/-- `set(tokens)` of lines 141/170, as a duplicate-free list. -/
def tokenSet (tokens : List (List Char)) : List PyVal :=
  (tokens.map PyVal.pyStr).dedup

/-- `set(digit_tracks)` of lines 141/170. -/
def digitSet (tokens : List (List Char)) : List PyVal :=
  ((tokens.filter isdigit).map (fun s => PyVal.pyInt (digitsToNat s))).dedup

/-- `set(tokens) - set(digit_tracks)`: the iteration domain of the
structured-token loop. -/
def loopVals (tokens : List (List Char)) : List PyVal :=
  (tokenSet tokens).filter (fun v => decide (v ∉ digitSet tokens))

/-- The loop domain projected back to strings (every surviving value is a
string; Python's set iteration order is unspecified, and every property
proved about the loop below is order-insensitive). -/
def loopTokens (tokens : List (List Char)) : List (List Char) :=
  (loopVals tokens).filterMap
    (fun v => match v with | PyVal.pyStr s => some s | PyVal.pyInt _ => none)

/-- The scope dispatch of lines 146-155 / 175-184 on an already-split token:
`a` queries the matcher over audio, `s` over subtitle, and any other scope
letter falls off the `if`/`elif` with no `else` branch: nothing is printed
and nothing is contributed. -/
def processParts (metadata : List Track) (p0 p1 : List Char) :
    Option (List Nat × List (List Char)) :=
  if p0 = "a".data then
    (get_track_number_by_pattern p1 metadata ["audio".data]).map (fun l => (l, []))
  else if p0 = "s".data then
    (get_track_number_by_pattern p1 metadata ["subtitle".data]).map (fun l => (l, []))
  else some ([], [])

/-- One iteration of the structured-token loop (lines 142-155 / 171-184):
returns the indices extended onto `named_tracks` and the diagnostics printed.
A token without a `:` separator prints `Unrecognized pattern for <part0>` and
contributes nothing.  `none` propagates an exception from the matcher. -/
def processToken (metadata : List Track) (tok : List Char) :
    Option (List Nat × List (List Char)) :=
  match splitColon tok with
  | [] => none
  | [p0] => some ([], ["Unrecognized pattern for ".data ++ p0])
  | p0 :: p1 :: _ => processParts metadata p0 p1

/-- The whole structured-token loop: accumulated `named_tracks` and printed
diagnostics, or `none` if some iteration raised. -/
def tokenLoop (metadata : List Track) : List (List Char) → Option (List Nat × List (List Char))
  | [] => some ([], [])
  | t :: ts =>
    match processToken metadata t with
    | none => none
    | some (n, d) =>
      match tokenLoop metadata ts with
      | none => none
      | some (ns, ds) => some (n ++ ns, d ++ ds)

/-- Lines 156-162: the indices of all audio and subtitle tracks. -/
def audioSubIndices (metadata : List Track) : List Nat :=
  (metadata.filter
      (fun t => decide (t.codec_type ∈ (["audio".data, "subtitle".data] : List (List Char))))).map
    Track.index

/-- Lines 163-165: `for d in digit_tracks: if d in track_to_strip: remove(d)`. -/
def removeDigits (s : Finset Nat) : List Nat → Finset Nat
  | [] => s
  | d :: ds => removeDigits (if d ∈ s then s.erase d else s) ds

/-- Keep mode (lines 138-166): the set handed to `write_file`. -/
def keepResolve (metadata : List Track) (keep : List (List Char)) :
    Option (Finset Nat × List (List Char)) :=
  match tokenLoop metadata (loopTokens keep) with
  | none => none
  | some (named, diags) =>
    some
      (removeDigits ((audioSubIndices metadata).toFinset \ named.toFinset)
        (digit_tracks keep),
       diags)

/-- Strip mode (lines 167-188): line 188 hands `write_file` the list
`digit_tracks + named_tracks`, duplicates included. -/
def stripResolve (metadata : List Track) (strip : List (List Char)) :
    Option (List Nat × List (List Char)) :=
  match tokenLoop metadata (loopTokens strip) with
  | none => none
  | some (named, diags) => some (digit_tracks strip ++ named, diags)

/-- Lines 185-187: the set `track_to_strip` built in strip mode (literal
indices plus the truthy named indices, so index `0` is dropped by the
`filter(lambda x: x, ...)`).  The source computes this set and then discards
it: line 188 passes `digit_tracks + named_tracks` instead. -/
def stripDeadSet (strip : List (List Char)) (named : List Nat) : Finset Nat :=
  (digit_tracks strip).toFinset ∪ (named.filter (fun x => decide (x ≠ 0))).toFinset

/-! ### Concrete catalogs used as witnesses and counterexamples -/

/-- A video track with all tags absent and an explicit unforced disposition. -/
def videoT (i : Nat) : Track := ⟨i, "video".data, none, none, none, some 0⟩

/-- An audio track with a language tag. -/
def audioT (i : Nat) (lang : List Char) : Track :=
  ⟨i, "audio".data, some lang, none, none, some 0⟩

/-- A subtitle track with a language tag and a byte count. -/
def subT (i : Nat) (lang : List Char) (bytes : Nat) : Track :=
  ⟨i, "subtitle".data, some lang, none, some bytes, some 0⟩

/-- The catalog of spec Scenarios A and B. -/
def catalogB : List Track :=
  [videoT 0, audioT 1 "eng".data, audioT 2 "jpn".data,
   subT 3 "eng".data 100, subT 4 "eng".data 50]

/-- A one-track catalog: a single audio track, no subtitles. -/
def catalogAudioOnly : List Track := [audioT 1 "eng".data]

/-- An audio track whose language and title both contain `eng`. -/
def catalogDouble : List Track :=
  [⟨1, "audio".data, some "eng".data, some "english".data, none, some 0⟩]

/-- A track whose source metadata does not specify the forced disposition. -/
def trackNoForced : Track := ⟨7, "audio".data, none, none, none, none⟩

/-- Two equal-byte-count subtitle tracks listed with the larger index first. -/
def catalogTie : List Track :=
  [⟨5, "subtitle".data, none, none, some 10, some 0⟩,
   ⟨3, "subtitle".data, none, none, some 10, some 0⟩]

/-! ### Helper lemmas -/

theorem removeDigits_eq_sdiff (l : List Nat) (s : Finset Nat) :
    removeDigits s l = s \ l.toFinset := by
  induction l generalizing s with
  | nil => simp [removeDigits]
  | cons d ds ih =>
    rw [removeDigits, ih]
    ext a
    by_cases hd : d ∈ s
    · simp only [if_pos hd, Finset.mem_sdiff, Finset.mem_erase, List.mem_toFinset,
        List.mem_cons]
      constructor
      · rintro ⟨⟨hne, ha⟩, hds⟩
        exact ⟨ha, by rintro (h | h) <;> [exact hne h; exact hds h]⟩
      · rintro ⟨ha, hds⟩
        exact ⟨⟨fun h => hds (Or.inl h), ha⟩, fun h => hds (Or.inr h)⟩
    · simp only [if_neg hd, Finset.mem_sdiff, List.mem_toFinset, List.mem_cons]
      constructor
      · rintro ⟨ha, hds⟩
        refine ⟨ha, ?_⟩
        rintro (rfl | h)
        · exact hd ha
        · exact hds h
      · rintro ⟨ha, hds⟩
        exact ⟨ha, fun h => hds (Or.inr h)⟩

theorem splitAux_eq_of_no_colon (s : List Char) (acc : List Char)
    (h : ∀ c ∈ s, c ≠ ':') : splitAux s acc = [acc.reverse ++ s] := by
  induction s generalizing acc with
  | nil => simp [splitAux]
  | cons c cs ih =>
    rw [splitAux, if_neg (h c (List.mem_cons_self c cs))]
    rw [ih (c :: acc) (fun x hx => h x (List.mem_cons_of_mem c hx))]
    simp

theorem splitColon_of_isdigit (s : List Char) (h : isdigit s = true) :
    splitColon s = [s] := by
  have hall : ∀ c ∈ s, c.isDigit = true := by
    simp only [isdigit, Bool.and_eq_true, List.all_eq_true] at h
    exact h.2
  have hno : ∀ c ∈ s, c ≠ ':' := by
    intro c hc he
    have hd2 : c.isDigit = true := hall c hc
    rw [he] at hd2
    exact absurd hd2 (by decide)
  rw [splitColon, splitAux_eq_of_no_colon s [] hno]
  simp

theorem pyStr_not_mem_digitSet (tokens : List (List Char)) (t : List Char) :
    PyVal.pyStr t ∉ digitSet tokens := by
  intro h
  simp only [digitSet, List.mem_dedup, List.mem_map] at h
  rcases h with ⟨s, _, hs⟩
  exact PyVal.noConfusion hs

theorem mem_loopTokens (tokens : List (List Char)) (t : List Char)
    (ht : t ∈ tokens) : t ∈ loopTokens tokens := by
  have h1 : PyVal.pyStr t ∈ tokenSet tokens := by
    simp only [tokenSet, List.mem_dedup]
    exact List.mem_map_of_mem _ ht
  have h2 : PyVal.pyStr t ∈ loopVals tokens := by
    simp only [loopVals, List.mem_filter]
    exact ⟨h1, decide_eq_true (pyStr_not_mem_digitSet tokens t)⟩
  simp only [loopTokens, List.mem_filterMap]
  exact ⟨PyVal.pyStr t, h2, rfl⟩

theorem mem_sortedCandidates (metadata : List Track) (ct : List (List Char))
    (t : Track) (h : t ∈ sortedCandidates metadata ct) : t ∈ metadata := by
  rw [sortedCandidates] at h
  have h2 := (List.perm_insertionSort byteLE _).mem_iff.mp h
  exact (List.mem_filter.mp h2).1

theorem substringScan_mem (pat : List Char) (l : List Track) (i : Nat)
    (h : i ∈ substringScan pat l) : ∃ t ∈ l, i = t.index := by
  induction l with
  | nil => cases h
  | cons t ts ih =>
    rw [substringScan] at h
    rcases List.mem_append.mp h with h1 | h2
    · rcases List.mem_map.mp h1 with ⟨c, _, hc⟩
      exact ⟨t, List.mem_cons_self t ts, hc.symm⟩
    · rcases ih h2 with ⟨u, hu, hi⟩
      exact ⟨u, List.mem_cons_of_mem t hu, hi⟩

theorem matcherBranch_mem (pattern : List Char) (ct : List (List Char))
    (filtered : List Track) (res : List Nat)
    (h : matcherBranch pattern ct filtered = some res) :
    ∀ i ∈ res, ∃ t ∈ filtered, i = t.index := by
  intro i hi
  unfold matcherBranch at h
  split_ifs at h with h1 h2 h3 h4 h5
  · obtain ⟨t, ht, hres⟩ : ∃ t ∈ filtered, res = [t.index] := by
      cases filtered with
      | nil => cases h
      | cons t ts =>
        refine ⟨t, List.mem_cons_self t ts, ?_⟩
        injection h with h'
        exact h'.symm
    rw [hres] at hi
    exact ⟨t, ht, List.mem_singleton.mp hi⟩
  · cases hg : filtered.getLast? with
    | none => rw [hg] at h; cases h
    | some t =>
      rw [hg] at h
      injection h with h'
      rw [← h'] at hi
      exact ⟨t, List.mem_of_getLast?_eq_some hg, List.mem_singleton.mp hi⟩
  · injection h with h'
    rw [← h'] at hi
    rw [List.mem_singleton.mp hi]
    exact ⟨filtered.get ⟨digitsToNat pattern, h4⟩, List.get_mem filtered _ _, rfl⟩
  · injection h with h'
    rw [← h'] at hi
    cases hi
  · injection h with h'
    rw [← h'] at hi
    exact substringScan_mem _ _ _ hi

theorem matcher_mem (pattern : List Char) (metadata : List Track)
    (codec_type : List (List Char)) (res : List Nat)
    (h : get_track_number_by_pattern pattern metadata codec_type = some res) :
    ∀ i ∈ res, i ∈ metadata.map Track.index := by
  intro i hi
  unfold get_track_number_by_pattern at h
  rcases matcherBranch_mem _ _ _ _ h i hi with ⟨t, htf, rfl⟩
  exact List.mem_map_of_mem Track.index (mem_sortedCandidates _ _ _ htf)

theorem processToken_eq_none (metadata : List Track) (tok : List Char)
    (hsp : splitColon tok = []) : processToken metadata tok = none := by
  unfold processToken
  rw [hsp]

theorem processToken_eq_diag (metadata : List Track) (tok p0 : List Char)
    (hsp : splitColon tok = [p0]) :
    processToken metadata tok = some ([], ["Unrecognized pattern for ".data ++ p0]) := by
  unfold processToken
  rw [hsp]

theorem processToken_eq_parts (metadata : List Track) (tok p0 p1 : List Char)
    (ps : List (List Char)) (hsp : splitColon tok = p0 :: p1 :: ps) :
    processToken metadata tok = processParts metadata p0 p1 := by
  unfold processToken
  rw [hsp]

theorem processParts_named_mem (metadata : List Track) (p0 p1 : List Char)
    (n : List Nat) (d : List (List Char))
    (h : processParts metadata p0 p1 = some (n, d)) :
    ∀ i ∈ n, i ∈ metadata.map Track.index := by
  intro i hi
  unfold processParts at h
  split_ifs at h with ha hs
  · rcases Option.map_eq_some'.mp h with ⟨l, hl, hld⟩
    injection hld with hn hd
    rw [← hn] at hi
    exact matcher_mem _ _ _ _ hl i hi
  · rcases Option.map_eq_some'.mp h with ⟨l, hl, hld⟩
    injection hld with hn hd
    rw [← hn] at hi
    exact matcher_mem _ _ _ _ hl i hi
  · injection h with h'
    injection h' with hn hd
    rw [← hn] at hi
    cases hi

theorem processToken_named_mem (metadata : List Track) (tok : List Char)
    (n : List Nat) (d : List (List Char))
    (h : processToken metadata tok = some (n, d)) :
    ∀ i ∈ n, i ∈ metadata.map Track.index := by
  intro i hi
  cases hsp : splitColon tok with
  | nil =>
    rw [processToken_eq_none metadata tok hsp] at h
    cases h
  | cons p0 rest =>
    cases rest with
    | nil =>
      rw [processToken_eq_diag metadata tok p0 hsp] at h
      injection h with h'
      injection h' with hn hd
      rw [← hn] at hi
      cases hi
    | cons p1 ps =>
      rw [processToken_eq_parts metadata tok p0 p1 ps hsp] at h
      exact processParts_named_mem _ _ _ _ _ h i hi

theorem tokenLoop_named_mem (metadata : List Track) (toks : List (List Char))
    (named : List Nat) (diags : List (List Char))
    (h : tokenLoop metadata toks = some (named, diags)) :
    ∀ i ∈ named, i ∈ metadata.map Track.index := by
  induction toks generalizing named diags with
  | nil =>
    rw [tokenLoop] at h
    injection h with h'
    injection h' with hn hd
    rw [← hn]
    intro i hi
    cases hi
  | cons u us ih =>
    rw [tokenLoop] at h
    cases hp : processToken metadata u with
    | none => rw [hp] at h; cases h
    | some nd =>
      rw [hp] at h
      obtain ⟨n1, d1⟩ := nd
      cases hl : tokenLoop metadata us with
      | none => rw [hl] at h; cases h
      | some nds =>
        rw [hl] at h
        obtain ⟨n2, d2⟩ := nds
        injection h with h'
        injection h' with hn hd
        rw [← hn]
        intro i hi
        rcases List.mem_append.mp hi with h1 | h2
        · exact processToken_named_mem _ _ _ _ hp i h1
        · exact ih n2 d2 hl i h2

theorem tokenLoop_processes (metadata : List Track) (toks : List (List Char))
    (t : List Char) (ht : t ∈ toks) (named : List Nat) (diags : List (List Char))
    (h : tokenLoop metadata toks = some (named, diags)) :
    ∃ n d, processToken metadata t = some (n, d) ∧
      (∀ i ∈ n, i ∈ named) ∧ (∀ x ∈ d, x ∈ diags) := by
  induction toks generalizing named diags with
  | nil => cases ht
  | cons u us ih =>
    rw [tokenLoop] at h
    cases hp : processToken metadata u with
    | none => rw [hp] at h; cases h
    | some nd =>
      rw [hp] at h
      obtain ⟨n1, d1⟩ := nd
      cases hl : tokenLoop metadata us with
      | none => rw [hl] at h; cases h
      | some nds =>
        rw [hl] at h
        obtain ⟨n2, d2⟩ := nds
        injection h with h'
        injection h' with hn hd
        rcases List.mem_cons.mp ht with rfl | hts
        · exact ⟨n1, d1, hp,
            fun i hi => hn ▸ List.mem_append_left n2 hi,
            fun x hx => hd ▸ List.mem_append_left d2 hx⟩
        · rcases ih hts n2 d2 hl with ⟨n, d, h1, h2, h3⟩
          exact ⟨n, d, h1,
            fun i hi => hn ▸ List.mem_append_right n1 (h2 i hi),
            fun x hx => hd ▸ List.mem_append_right d1 (h3 x hx)⟩

theorem filter_orderedInsert_of_key (k : Nat) (x : Track) (l : List Track)
    (hx : byteKey x = k) :
    (List.orderedInsert byteLE x l).filter (fun t => byteKey t == k) =
      x :: l.filter (fun t => byteKey t == k) := by
  induction l with
  | nil => simp [List.orderedInsert, List.filter_cons, hx]
  | cons b bs ih =>
    rw [List.orderedInsert]
    by_cases hb : byteLE x b
    · rw [if_pos hb]
      simp [List.filter_cons, hx]
    · rw [if_neg hb]
      have hlt : byteKey b < byteKey x := Nat.lt_of_not_le (fun hle => hb hle)
      have hne : (byteKey b == k) = false := by
        rw [beq_eq_false_iff_ne]
        intro he
        rw [← hx] at he
        exact absurd he (Nat.ne_of_lt hlt)
      simp [List.filter_cons, hne, ih]

theorem filter_orderedInsert_of_ne (k : Nat) (x : Track) (l : List Track)
    (hx : byteKey x ≠ k) :
    (List.orderedInsert byteLE x l).filter (fun t => byteKey t == k) =
      l.filter (fun t => byteKey t == k) := by
  have hxf : (byteKey x == k) = false := by
    rw [beq_eq_false_iff_ne]
    exact hx
  induction l with
  | nil => simp [List.orderedInsert, List.filter_cons, hxf]
  | cons b bs ih =>
    rw [List.orderedInsert]
    by_cases hb : byteLE x b
    · rw [if_pos hb]
      simp [List.filter_cons, hxf]
    · rw [if_neg hb]
      simp [List.filter_cons, ih]

theorem insertionSort_filter_key (k : Nat) (l : List Track) :
    (List.insertionSort byteLE l).filter (fun t => byteKey t == k) =
      l.filter (fun t => byteKey t == k) := by
  induction l with
  | nil => rfl
  | cons x xs ih =>
    rw [List.insertionSort]
    by_cases hx : byteKey x = k
    · rw [filter_orderedInsert_of_key k x _ hx, ih, List.filter_cons]
      simp [hx]
    · rw [filter_orderedInsert_of_ne k x _ hx, ih, List.filter_cons]
      simp [hx]

/-! ### Claims -/

/-- Claim C1: in keep mode the exclusion set handed to the remux step equals
the set of all audio/subtitle indices in the catalog minus the union of the
pattern-matched (named) indices and the literal digit indices; and for a
catalog whose indices are distinct, the index of a video or other-kind track
is never a member of that exclusion set. -/
theorem c1_keep_mode_exclusion (metadata : List Track) (keep : List (List Char))
    (named : List Nat) (diags : List (List Char)) (S : Finset Nat)
    (hn : (metadata.map Track.index).Nodup)
    (hloop : tokenLoop metadata (loopTokens keep) = some (named, diags))
    (hres : keepResolve metadata keep = some (S, diags)) :
    S = (audioSubIndices metadata).toFinset \
        (named.toFinset ∪ (digit_tracks keep).toFinset) ∧
    ∀ t ∈ metadata, t.codec_type ≠ "audio".data → t.codec_type ≠ "subtitle".data →
      t.index ∉ S := by
  have hSeq : S = (audioSubIndices metadata).toFinset \
      (named.toFinset ∪ (digit_tracks keep).toFinset) := by
    unfold keepResolve at hres
    rw [hloop] at hres
    injection hres with h'
    injection h' with hS hdg
    rw [← hS, removeDigits_eq_sdiff]
    ext a
    simp only [Finset.mem_sdiff, Finset.mem_union, List.mem_toFinset]
    constructor
    · rintro ⟨⟨ha, hb⟩, hc⟩
      exact ⟨ha, by rintro (hx | hx) <;> [exact hb hx; exact hc hx]⟩
    · rintro ⟨ha, hb⟩
      exact ⟨⟨ha, fun hx => hb (Or.inl hx)⟩, fun hx => hb (Or.inr hx)⟩
  refine ⟨hSeq, ?_⟩
  intro t htm hta hts hmem
  rw [hSeq] at hmem
  have hbase : t.index ∈ audioSubIndices metadata :=
    List.mem_toFinset.mp (Finset.mem_sdiff.mp hmem).1
  unfold audioSubIndices at hbase
  rcases List.mem_map.mp hbase with ⟨u, hu, hui⟩
  have hufil := List.mem_filter.mp hu
  have hueq : u = t :=
    List.inj_on_of_nodup_map hn hufil.1 htm hui
  have huk := of_decide_eq_true hufil.2
  rw [hueq] at huk
  rcases List.mem_cons.mp huk with hk | hk
  · exact hta hk
  · rcases List.mem_cons.mp hk with hk2 | hk2
    · exact hts hk2
    · cases hk2

/-- Claim C1 witness: spec Scenario B.  Catalog `[video 0, audio 1 eng,
audio 2 jpn, subtitle 3 eng 100, subtitle 4 eng 50]` with keep token
`a:jpn` resolves to the exclusion set `{1, 3, 4}`, which equals all
audio/subtitle indices minus the matched index 2. -/
theorem c1_witness :
    keepResolve catalogB ["a:jpn".data] = some ({1, 3, 4}, []) ∧
    ({1, 3, 4} : Finset Nat) =
      (audioSubIndices catalogB).toFinset \
        (([2] : List Nat).toFinset ∪ (digit_tracks ["a:jpn".data]).toFinset) :=
  ⟨by decide,
   (c1_keep_mode_exclusion catalogB ["a:jpn".data] [2] [] {1, 3, 4}
      (by decide) (by decide) (by decide)).1⟩

/-- Claim C2 (code bug): for a track whose source metadata does not specify
the forced disposition, the code's forced flag is `true` (the default in
`disposition.get("forced", 1)` is 1, not 0), the derived string tested by
the substring matcher is `"forced"` rather than the empty string, and the
pattern `forc` (a substring of `forced`) matches the track via that derived
string even though the track was never flagged forced. -/
theorem c2_forced_default_bug :
    selectable_forced trackNoForced = true ∧
    forced_string trackNoForced = "forced".data ∧
    get_track_number_by_pattern "forc".data [trackNoForced] ["audio".data] =
      some [7] :=
  ⟨by decide, by decide, by decide⟩

/-- Claim C3 counterexample: the structured token `x:foo` has scope letter
`x`, neither `a` nor `s`.  Resolving it contributes zero indices (first
component `[]`) but also produces no diagnostic at all (second component
`[]`): the token is silently dropped, and no `UnknownScopeError` is raised
anywhere in the code. -/
theorem c3_counterexample :
    stripResolve catalogAudioOnly ["x:foo".data] = some ([], []) := by decide

/-- Claim C3 amended: a structured token whose scope letter is neither `a`
nor `s` contributes zero indices and processing of the remaining tokens
continues unchanged, but the token is dropped silently: no error is raised
and no diagnostic is reported. -/
theorem c3_unknown_scope_silent (metadata : List Track) (tok : List Char)
    (rest : List (List Char)) (p0 p1 : List Char) (ps : List (List Char))
    (hsp : splitColon tok = p0 :: p1 :: ps)
    (ha : p0 ≠ "a".data) (hs : p0 ≠ "s".data) :
    processToken metadata tok = some ([], []) ∧
    tokenLoop metadata (tok :: rest) = tokenLoop metadata rest := by
  have h1 : processToken metadata tok = some ([], []) := by
    rw [processToken_eq_parts metadata tok p0 p1 ps hsp]
    unfold processParts
    rw [if_neg ha, if_neg hs]
  refine ⟨h1, ?_⟩
  rw [tokenLoop, h1]
  cases hl : tokenLoop metadata rest with
  | none => rfl
  | some nd =>
    obtain ⟨ns, ds⟩ := nd
    simp

/-- Claim C3 witness for the amended statement, at the token `x:foo`. -/
theorem c3_witness :
    splitColon "x:foo".data = ["x".data, "foo".data] ∧
    processToken ([] : List Track) "x:foo".data = some ([], []) :=
  ⟨by decide,
   (c3_unknown_scope_silent [] "x:foo".data [] "x".data "foo".data []
      (by decide) (by decide) (by decide)).1⟩

/-- Claim C4 (code bug): on a catalog containing no subtitle tracks, the
tokens `s:smaller` and `s:bigger` make the matcher index an empty candidate
list (`filtered_metadata[0]` / `[-1]`), raising `IndexError` — modelled as
`none` — instead of returning the empty set of indices. -/
theorem c4_smaller_crash :
    get_track_number_by_pattern "smaller".data catalogAudioOnly
      ["subtitle".data] = none ∧
    get_track_number_by_pattern "bigger".data catalogAudioOnly
      ["subtitle".data] = none :=
  ⟨by decide, by decide⟩

/-- Claim C5 (code bug): with a single audio candidate, the predicate `5` is
a plain integer whose value is not a valid position; instead of falling back
to case-insensitive substring matching, the code raises — `pattern` has been
rebound to `int(pattern)` and the substring loop calls `pattern.lower()` on
an `int` (`AttributeError`), modelled as `none`.  The in-range predicate `0`
still returns the positional result. -/
theorem c5_digit_overflow_crash :
    get_track_number_by_pattern "5".data catalogAudioOnly ["audio".data] = none ∧
    get_track_number_by_pattern "0".data catalogAudioOnly ["audio".data] =
      some [1] :=
  ⟨by decide, by decide⟩

/-- Claim C6 (code bug): the pattern `eng` is a substring of both the
language (`eng`) and the title (`english`) of the single audio track of
index 1, so the matcher appends index 1 twice, and strip mode hands the
remux step the concatenation `digit_tracks + named_tracks = [1, 1]` — index
1 occurs twice.  The de-duplicated set the code also computes
(`track_to_strip = {1}`) is discarded, never handed on. -/
theorem c6_duplicate_indices :
    stripResolve catalogDouble ["a:eng".data] = some ([1, 1], []) ∧
    stripDeadSet ["a:eng".data] [1, 1] = {1} :=
  ⟨by decide, by decide⟩

/-- Claim C7 counterexample: in strip mode the literal digit token `99` puts
index 99 into the value handed to the remux step although no track of the
catalog has index 99. -/
theorem c7_counterexample :
    (stripResolve catalogAudioOnly ["99".data]).map Prod.fst = some [99] ∧
    (99 : Nat) ∉ catalogAudioOnly.map Track.index :=
  ⟨by decide, by decide⟩

/-- Claim C7 amended: the keep-mode exclusion set contains only indices
present in the catalog, and every pattern-matched (named) index — in either
mode — is the index of a catalog track; only literal digit tokens can place
an index absent from the catalog into the strip-mode result, and they are
passed through unchanged. -/
theorem c7_catalog_membership (metadata : List Track) :
    (∀ keep S d, keepResolve metadata keep = some (S, d) →
      ∀ i ∈ S, i ∈ metadata.map Track.index) ∧
    (∀ strip named d,
      tokenLoop metadata (loopTokens strip) = some (named, d) →
      ∀ i ∈ named, i ∈ metadata.map Track.index) := by
  constructor
  · intro keep S d hres i hi
    unfold keepResolve at hres
    cases hl : tokenLoop metadata (loopTokens keep) with
    | none => rw [hl] at hres; cases hres
    | some nd =>
      rw [hl] at hres
      obtain ⟨named, diags⟩ := nd
      injection hres with h'
      injection h' with hS hd
      rw [← hS, removeDigits_eq_sdiff] at hi
      have hbase : i ∈ audioSubIndices metadata :=
        List.mem_toFinset.mp
          (Finset.mem_sdiff.mp (Finset.mem_sdiff.mp hi).1).1
      unfold audioSubIndices at hbase
      rcases List.mem_map.mp hbase with ⟨u, hu, hui⟩
      rw [← hui]
      exact List.mem_map_of_mem Track.index (List.mem_filter.mp hu).1
  · intro strip named d hl i hi
    exact tokenLoop_named_mem metadata _ named d hl i hi

/-- Claim C7 witness: the keep-mode part at spec Scenario B: index 1 of the
computed exclusion set is present in the catalog. -/
theorem c7_witness : (1 : Nat) ∈ catalogB.map Track.index :=
  (c7_catalog_membership catalogB).1 ["a:jpn".data] {1, 3, 4} []
    (by decide) 1 (by decide)

/-- Claim C8 counterexample: the non-empty strip token list `[a:zzz]`
resolves to the empty exclusion set over a catalog whose only audio track
does not match the pattern, refuting the claimed equivalence (non-empty `T`
does not imply a non-empty exclusion set). -/
theorem c8_counterexample :
    stripResolve catalogAudioOnly ["a:zzz".data] = some ([], []) ∧
    (["a:zzz".data] : List (List Char)) ≠ [] :=
  ⟨by decide, by decide⟩

/-- Claim C8 amended: only the forward direction survives: for every
catalog, the empty strip token list resolves to the empty exclusion set
(and no diagnostics); a non-empty token list whose patterns match nothing
also yields the empty set. -/
theorem c8_empty_tokens (metadata : List Track) :
    stripResolve metadata [] = some ([], []) := rfl

/-- Claim C9 counterexample: two subtitle tracks with equal byte counts,
listed in the catalog with index 5 before index 3, come out of the candidate
sort still in catalog order `[5, 3]` — not in ascending index order. -/
theorem c9_counterexample :
    (sortedCandidates catalogTie ["subtitle".data]).map Track.index = [5, 3] ∧
    ¬ List.Sorted (· ≤ ·)
      ((sortedCandidates catalogTie ["subtitle".data]).map Track.index) :=
  ⟨by decide, by decide⟩

/-- Claim C9 amended: the candidate list is sorted ascending by byte count,
and ties between equal-byte-count tracks keep the order in which the
descriptors appear in the catalog (Python `sorted` is stable); the tie-break
is not ascending track index. -/
theorem c9_stable_sort (metadata : List Track) (codec_type : List (List Char)) :
    List.Sorted byteLE (sortedCandidates metadata codec_type) ∧
    ∀ k : Nat,
      (sortedCandidates metadata codec_type).filter (fun t => byteKey t == k) =
        (metadata.filter (fun t => decide (t.codec_type ∈ codec_type))).filter
          (fun t => byteKey t == k) := by
  constructor
  · exact List.sorted_insertionSort byteLE _
  · intro k
    exact insertionSort_filter_key k _

/-- Claim C10: a token consisting only of digits survives the
`set(tokens) - set(digit_tracks)` subtraction (an `int` never equals a
`str`), so it is also processed by the structured-token loop, where — having
no `:` separator — it produces the `Unrecognized pattern` diagnostic, which
reaches the collected diagnostics, while contributing zero named indices;
its index enters the result only through the literal `digit_tracks` path. -/
theorem c10_digit_tokens (metadata : List Track) (tokens : List (List Char))
    (t : List Char) (ht : t ∈ tokens) (hd : isdigit t = true) :
    t ∈ loopTokens tokens ∧
    processToken metadata t =
      some ([], ["Unrecognized pattern for ".data ++ t]) ∧
    digitsToNat t ∈ digit_tracks tokens ∧
    ∀ named diags, tokenLoop metadata (loopTokens tokens) = some (named, diags) →
      ("Unrecognized pattern for ".data ++ t) ∈ diags := by
  have hproc : processToken metadata t =
      some ([], ["Unrecognized pattern for ".data ++ t]) :=
    processToken_eq_diag metadata t t (splitColon_of_isdigit t hd)
  refine ⟨mem_loopTokens tokens t ht, hproc, ?_, ?_⟩
  · exact List.mem_map_of_mem digitsToNat (List.mem_filter.mpr ⟨ht, hd⟩)
  · intro named diags hloop
    rcases tokenLoop_processes metadata (loopTokens tokens) t
        (mem_loopTokens tokens t ht) named diags hloop with ⟨n, d, hp, _, hdm⟩
    rw [hproc] at hp
    injection hp with h'
    injection h' with hn hdd
    exact hdm _ (hdd ▸ List.mem_singleton_self _)

/-- Claim C10 witness at the token `3`. -/
theorem c10_witness :
    isdigit "3".data = true ∧
    processToken ([] : List Track) "3".data =
      some ([], ["Unrecognized pattern for ".data ++ "3".data]) :=
  ⟨by decide,
   (c10_digit_tokens [] ["3".data] "3".data (by decide) (by decide)).2.1⟩

end FFStrip
